import Mathlib

/-!
Verification of the sillybot request-serialization, streaming-delivery and
sidecar-supervision core (discord_bot.go, imagegen/image_gen.go,
image_gen.go) against its natural-language specification.

Go strings are modelled as lists of characters (`GStr`); all inputs of
interest here are ASCII, so character indices coincide with Go's byte
indices.  Fallible operations return `Option`/`Except`; a Go `panic` is
modelled as `none`.
-/

namespace Sillybot

/-- Go strings, modelled as lists of characters. -/
abbrev GStr := List Char

/-- The backquote character (U+0060), written by code point to keep the
character out of the source text. -/
def btick : Char := Char.ofNat 96

/-- The newline character. -/
def nlChar : Char := '\n'

/-- The markdown triple-backquote fence marker. -/
def fence : GStr := [btick, btick, btick]

/-- Whether a string starts with the triple-backquote fence marker. -/
def startsFence : GStr → Bool
  | c :: d :: e :: _ => c = btick && d = btick && e = btick
  | _ => false

/-- Go `strings.Count(t, "` ``` `")`: number of non-overlapping fence
markers, scanning left to right. -/
def countFence : GStr → Nat
  | c :: d :: e :: rest =>
    if c = btick && d = btick && e = btick then 1 + countFence rest
    else countFence (d :: e :: rest)
  | _ => 0

/-- Go `strings.Count(t, "` ` `")`: number of single backquote characters. -/
def countTick : GStr → Nat
  | [] => 0
  | c :: rest => (if c = btick then 1 else 0) + countTick rest

/-- Index of the first fence marker, if any (Go `strings.Index(t, "` ``` `")`
with `some`/`none` in place of the `-1` sentinel). -/
def indexFence? : GStr → Option Nat
  | [] => none
  | c :: rest => if startsFence (c :: rest) then some 0 else (indexFence? rest).map (· + 1)

/-- Go `strings.Index(t, "` ``` `")`, with `-1` when absent. -/
def indexFenceI (s : GStr) : Int :=
  match indexFence? s with
  | none => -1
  | some i => i

/-- Index of the last occurrence of character `c`, if any. -/
def lastIndexByte? (s : GStr) (c : Char) : Option Nat :=
  match s with
  | [] => none
  | x :: rest =>
    match lastIndexByte? rest c with
    | some i => some (i + 1)
    | none => if x = c then some 0 else none

/-- Go `strings.LastIndexByte`, with `-1` when absent. -/
def lastIndexByteI (s : GStr) (c : Char) : Int :=
  match lastIndexByte? s c with
  | none => -1
  | some i => i

/-- Index of the last occurrence of any character from `cs`, if any. -/
def lastIndexAny? (s : GStr) (cs : List Char) : Option Nat :=
  match s with
  | [] => none
  | x :: rest =>
    match lastIndexAny? rest cs with
    | some i => some (i + 1)
    | none => if cs.contains x then some 0 else none

/-- Go `strings.LastIndexAny`, with `-1` when absent. -/
def lastIndexAnyI (s : GStr) (cs : List Char) : Int :=
  match lastIndexAny? s cs with
  | none => -1
  | some i => i

/-- Result of the Go call `regexp.MatchString(pattern, s)`: either a match
outcome or a pattern-compilation error. -/
inductive RxRes
  | ok (b : Bool)
  | err
deriving DecidableEq

/-- The search window of the punctuation rule (discord_bot.go lines
627-631): with an odd number of single backquotes the buffer is cut back
to just before the last backquote, so the sentence search cannot land
inside an inline code span. -/
def punctWindow (t : GStr) : GStr :=
  if countTick t % 2 = 1 then t.take (lastIndexByteI t btick).toNat else t

/-- The sentence-punctuation rule of `splitResponse` (discord_bot.go lines
633-638): position right after the last `.`, `?` or `!` in the search
window, `0` when there is none (Go's `start` variable is always `0`). -/
def splitPunct (t : GStr) : Int :=
  if lastIndexAnyI (punctWindow t) ".?!".data = -1 then 0
  else lastIndexAnyI (punctWindow t) ".?!".data + 1

/-- The enumeration check (discord_bot.go lines 608-615): a `- ` or `* `
prefix short-circuits; otherwise the result comes from the (swapped)
`regexp.MatchString(t, ...)` call abstracted by `rx`. -/
def enumCheck (rx : GStr → RxRes) (t : GStr) : RxRes :=
  if "- ".data.isPrefixOf t || "* ".data.isPrefixOf t then RxRes.ok true
  else rx t

/-- Second half of `splitResponse` (discord_bot.go lines 597-638): the code
that runs after the triple-backquote block, on the possibly truncated
buffer.  The `rx` parameter abstracts the library call
`regexp.MatchString(t, "^\d+\. .*")` — note the Go code passes the buffer
`t` as the *pattern* and the literal as the subject.  `none` models the
`panic(err)` on a pattern-compilation error. -/
def splitRest (rx : GStr → RxRes) (t : GStr) : Option Int :=
  if t = [] then some 0
  else if 10 ≤ lastIndexByteI t nlChar then some (lastIndexByteI t nlChar + 1)
  else
    match enumCheck rx t with
    | RxRes.err => none
    | RxRes.ok isEnum =>
      if isEnum then some 0
      else if t.length < 10 then some 0
      else some (splitPunct t)

/-- `splitResponse` (discord_bot.go lines 587-639): returns the number of
bytes of the pending buffer to flush, `0` meaning flush nothing; `none`
models the reachable `panic`.  The fence block comes first: with exactly
one fence marker the buffer is truncated to just before it, with two or
more the function returns immediately, cutting right after the second
marker (Go computes `start := Index(t, fence) + 3` and returns
`Index(t[start:], fence) + start + 3`). -/
def splitResponse (rx : GStr → RxRes) (t : GStr) : Option Int :=
  if countFence t = 1 then
    splitRest rx (t.take (indexFenceI t).toNat)
  else if 2 ≤ countFence t then
    some (indexFenceI (t.drop (indexFenceI t + 3).toNat) + (indexFenceI t + 3) + 3)
  else splitRest rx t

/-- Position just past the second non-overlapping fence marker, from the
spec's wording: the first fence marker starts at `i1`, the second at
`i1 + 3 + i2` within the remainder, and the cut falls right after it. -/
def secondFenceEnd (t : GStr) : Option Nat :=
  (indexFence? t).bind fun i1 =>
    (indexFence? (t.drop (i1 + 3))).map fun i2 => i1 + 3 + i2 + 3

/-- Running parenthesis-balance check: `false` when a closing parenthesis
has no opener or an opener is never closed. -/
def parBal : GStr → Nat → Bool
  | [], n => n = 0
  | c :: rest, n =>
    if c = '(' then parBal rest (n + 1)
    else if c = ')' then (if n = 0 then false else parBal rest (n - 1))
    else parBal rest n

/-- Whether `pat` occurs contiguously inside `s`. -/
def occursIn : GStr → GStr → Bool
  | [], pat => pat.isEmpty
  | c :: rest, pat => pat.isPrefixOf (c :: rest) || occursIn rest pat

/-- The fixed literal that the Go code passes as the *subject* of
`regexp.MatchString` (it was meant to be the pattern): `^\d+\. .*`. -/
def rxSubject : GStr := "^\\d+\\. .*".data

/-- Modelled from the spec: the behaviour of the Go standard-library call
`regexp.MatchString(pattern, rxSubject)` as invoked (with swapped
arguments) by `splitResponse`.  The regexp engine itself is outside this
repository, so it is approximated: a pattern with unbalanced parentheses
fails to compile (`err`), and an accepted pattern matches iff it occurs
literally in the subject.  This agrees with Go's RE2 semantics on every
pattern this development evaluates (patterns whose metacharacters do not
affect the outcome on this subject, such as `1. item one`, `(`, and plain
English sentences). -/
def rxGo (pattern : GStr) : RxRes :=
  if parBal pattern 0 then RxRes.ok (occursIn rxSubject pattern)
  else RxRes.err

/-! ### The streaming delivery loop (discord_bot.go lines 511-577) -/

/-- A stimulus of the in-flight chat stream: a new token arriving on the
`words` channel, or a 3-second ticker tick. -/
inductive ChatEv
  | word (w : GStr)
  | tick
deriving DecidableEq

/-- State of the flush goroutine of `handlePrompt`: `text` is everything
flushed so far, `pending` the not-yet-flushed buffer, `emitted` the
sequence of chunks posted on ticks. -/
structure ChatState where
  text : GStr
  pending : GStr
  emitted : List GStr
deriving DecidableEq

/-- Initial state of the flush goroutine. -/
def chatInit : ChatState := ⟨[], [], []⟩

/-- One loop iteration of the flush goroutine (lines 525-566): a received
word is appended to `pending`; on a tick, `i := splitResponse(pending)` is
computed, nothing happens when `i = 0`, otherwise `pending[:i]` is posted
and moved into `text`.  `none` propagates the `splitResponse` panic. -/
def chatStep (rx : GStr → RxRes) (s : ChatState) : ChatEv → Option ChatState
  | ChatEv.word w => some { s with pending := s.pending ++ w }
  | ChatEv.tick =>
    match splitResponse rx s.pending with
    | none => none
    | some i =>
      if i = 0 then some s
      else some
        { text := s.text ++ s.pending.take i.toNat
          pending := s.pending.drop i.toNat
          emitted := s.emitted ++ [s.pending.take i.toNat] }

/-- Runs the flush goroutine over a finite stream of stimuli. -/
def chatRun (rx : GStr → RxRes) : List ChatEv → ChatState → Option ChatState
  | [], s => some s
  | e :: es, s =>
    match chatStep rx s e with
    | none => none
    | some s2 => chatRun rx es s2

/-- Stream closure (lines 527-543), delivered chunks: with non-empty
`pending` exactly one final message containing all of it is posted after
the tick emissions. -/
def chatFinishEmits (s : ChatState) : List GStr :=
  if s.pending = [] then s.emitted else s.emitted ++ [s.pending]

/-- Stream closure (lines 527-543), history: the content of the assistant
turn appended to the conversation (`text`, plus the final flush of
`pending` when non-empty). -/
def chatFinishText (s : ChatState) : GStr :=
  if s.pending = [] then s.text else s.text ++ s.pending

/-- Concatenation of all tokens received over a stimulus stream. -/
def wordsOf : List ChatEv → GStr
  | [] => []
  | ChatEv.word w :: es => w ++ wordsOf es
  | ChatEv.tick :: es => wordsOf es

/-! ### Bounded request queues and worker loops (discord_bot.go) -/

/-- A Go buffered channel used only with non-blocking sends: capacity and
current content. -/
structure BChan (α : Type) where
  cap : Nat
  items : List α
deriving DecidableEq

/-- Non-blocking send, Go's `select { case ch <- x: default: }`: appends
and reports `true` when below capacity, otherwise leaves the queue
untouched and reports `false`.  It never blocks the producer — it is a
total function of the current queue state. -/
def tryEnqueue {α : Type} (q : BChan α) (x : α) : Bool × BChan α :=
  if q.items.length < q.cap then (true, ⟨q.cap, q.items ++ [x]⟩)
  else (false, q)

/-- `msgReq` (discord_bot.go lines 808-818). -/
structure MsgReq where
  msg : String
  authorID : String
  channelID : String
  guildID : String
  replyToID : String
deriving DecidableEq

/-- `intReq` (discord_bot.go lines 821-828); `hasInt` models whether the
`int *discordgo.Interaction` field is non-nil. -/
structure IntReq where
  description : String
  imagePrompt : String
  labelsContent : String
  cmdName : String
  hasInt : Bool
deriving DecidableEq

/-- The chat queue as created by `newDiscordBot`: `make(chan msgReq, 5)`. -/
def chatQueue : BChan MsgReq := ⟨5, []⟩

/-- The image queue as created by `newDiscordBot`: `make(chan intReq, 3)`. -/
def imageQueue : BChan IntReq := ⟨3, []⟩

/-- Rejection text sent by `onMessageCreate` when the chat queue is full. -/
def chatRejectMsg : String :=
  "Sorry! I have too many pending chat requests. Please retry in a moment."

/-- Rejection text sent by `onImage` when the image queue is full. -/
def imageRejectMsg : String :=
  "Sorry! I have too many pending image requests. Please retry in a moment."

/-- Admission in `onMessageCreate` (lines 317-327): non-blocking send,
with the user-visible rejection message on overflow. -/
def onMessageAdmit (q : BChan MsgReq) (req : MsgReq) :
    BChan MsgReq × Option String :=
  if (tryEnqueue q req).1 then ((tryEnqueue q req).2, none)
  else (q, some chatRejectMsg)

/-- Admission in `onImage` (lines 467-474): non-blocking send, with the
user-visible rejection message on overflow. -/
def onImageAdmit (q : BChan IntReq) (req : IntReq) :
    BChan IntReq × Option String :=
  if (tryEnqueue q req).1 then ((tryEnqueue q req).2, none)
  else (q, some imageRejectMsg)

/-- `chatRoutine` (lines 489-497) applied to the finite stream of requests
it dequeues: returns the requests actually handled (in order) and whether
the loop terminated by observing the poison request (empty `authorID`).
An exhausted stream without poison leaves the worker still waiting —
`false` — since the channel is never closed. -/
def chatRoutine : List MsgReq → List MsgReq × Bool
  | [] => ([], false)
  | r :: rest =>
    if r.authorID = "" then ([], true)
    else ((r :: (chatRoutine rest).1), (chatRoutine rest).2)

/-- `imageRoutine` (lines 500-508): same shape, poison is a nil
interaction pointer. -/
def imageRoutine : List IntReq → List IntReq × Bool
  | [] => ([], false)
  | r :: rest =>
    if r.hasInt = false then ([], true)
    else ((r :: (imageRoutine rest).1), (imageRoutine rest).2)

/-! ### Sidecar readiness polling (imagegen/image_gen.go lines 78-93) -/

/-- What one iteration of the readiness loop observes: whether
`ctx.Err() != nil` at the top-of-loop check, whether the health POST
returned no error with `Ready == true`, and whether the `done` channel
fired in the select (with the process exit error). -/
structure PollObs where
  ctxErr : Bool
  healthReady : Bool
  doneErr : Option String
deriving DecidableEq

/-- Outcome of `New` as seen from the polling loop. -/
inductive NewOutcome
  | success
  | startFailure (e : String)
  | polling
deriving DecidableEq

/-- The readiness loop of `imagegen.New` (lines 78-93), identical in shape
to the loop of `NewImageGen` (image_gen.go lines 62-72): while
`ctx.Err() == nil`, probe health and break on ready; otherwise select on
the done channel (immediate hard failure wrapping the exit error), context
cancellation, or a 100ms timer.  Exiting the `for` — through cancellation
or a successful probe — falls through to `return ig, nil`, i.e.
`success`.  `polling` means the finite observation list ran out with the
loop still running. -/
def pollReady : List PollObs → NewOutcome
  | [] => NewOutcome.polling
  | o :: rest =>
    if o.ctxErr then NewOutcome.success
    else if o.healthReady then NewOutcome.success
    else
      match o.doneErr with
      | some e => NewOutcome.startFailure ("failed to start: " ++ e)
      | none => pollReady rest

/-! ### Sidecar session setup and shutdown (imagegen/image_gen.go) -/

/-- Environment of `imagegen.New`: the `py.IsHostPort` validator and the
outcomes of the local-path provisioning steps (`os.MkdirAll`,
`py.RecreateVirtualEnvIfNeeded`, `py.Run`), each an error or success. -/
structure IgEnv where
  isHostPort : String → Bool
  mkdirErr : Option String
  venvErr : Option String
  runErr : Option String
  port : Nat

/-- Options for `imagegen.New` (lines 26-35). -/
structure IgOptions where
  remote : String
  model : String
deriving DecidableEq

/-- Provisioning side effects of the local path of `imagegen.New`. -/
inductive SetupAction
  | mkdirCache
  | recreateVenv
  | launchProcess
deriving DecidableEq

/-- `imagegen.Session` as relevant here: the base URL, whether the
`cancel` handle is non-nil (only the local path sets it), and the step
count (always 8). -/
structure IgSession where
  baseURL : String
  hasCancel : Bool
  steps : Nat
deriving DecidableEq

/-- The pre-polling phase of `imagegen.New` (lines 47-75): on the local
path validate the model, create the cache directory, provision the
virtual environment and launch the process; on the remote path only
validate the `host:port` form and aim at the existing endpoint, with no
provisioning action and no cancel handle. -/
def igNewSetup (env : IgEnv) (opts : IgOptions) :
    Except String (IgSession × List SetupAction) :=
  if opts.remote = "" then
    if opts.model ≠ "python" then
      Except.error ("unknown model \"" ++ opts.model ++ "\"")
    else
      match env.mkdirErr with
      | some e =>
        Except.error ("failed to create the directory to cache python: " ++ e)
      | none =>
        match env.venvErr with
        | some e => Except.error ("failed to load image_gen: " ++ e)
        | none =>
          match env.runErr with
          | some e => Except.error e
          | none =>
            Except.ok
              (⟨"http://localhost:" ++ toString env.port, true, 8⟩,
               [SetupAction.mkdirCache, SetupAction.recreateVenv,
                SetupAction.launchProcess])
  else if env.isHostPort opts.remote then
    Except.ok (⟨"http://" ++ opts.remote, false, 8⟩, [])
  else
    Except.error ("invalid remote \"" ++ opts.remote ++ "\"; use form 'host:port'")

/-- `Session.Close` (lines 96-103): with a nil cancel handle it returns
nil immediately; otherwise it invokes the handle and returns the value
received from the done channel.  The boolean reports whether the
terminate handle was invoked. -/
def igClose (s : IgSession) (doneErr : Option String) : Bool × Option String :=
  if s.hasCancel = false then (false, none)
  else (true, doneErr)

/-! ### The image request pipeline (discord_bot.go lines 642-728) -/

/-- Environment of one `handleImage` call: the markdown escaper (regexp
based, treated as an external collaborator), the outcomes of the two LLM
prompt calls, of `GenImage`, and of `png.Encode`. -/
structure ImgEnv where
  esc : String → String
  enhance : Except String String
  meme : Except String String
  gen : Except String Unit
  encodeOk : Bool

/-- One `InteractionResponseEdit` call: its content and whether image
bytes are attached. -/
structure RespEdit where
  content : String
  hasFile : Bool
deriving DecidableEq

/-- Go `strings.Trim(s, "\",.")`: removes leading and trailing `"`,
`,` and `.` characters. -/
def goTrim (s : String) : String :=
  String.mk
    (((s.data.dropWhile (fun c => ['"', ',', '.'].contains c)).reverse.dropWhile
      (fun c => ['"', ',', '.'].contains c)).reverse)

/-- Stages of `handleImage` before image generation (lines 643-695):
description line, optional LLM prompt enhancement (a failure appends an
error note and *continues*), image-prompt line, optional LLM label
generation (same failure policy).  Returns the accumulated status text
and the effective `labelsContent`. -/
def preGen (env : ImgEnv) (req : IntReq) : String × String :=
  let c0 :=
    if req.description ≠ "" then
      "*Description*: " ++ env.esc req.description ++ "\n"
    else ""
  let e1 :=
    if req.cmdName = "meme_auto" || req.cmdName = "image_auto" then
      match env.enhance with
      | Except.error e =>
        (c0 ++ "*LLM Error*: " ++ env.esc e ++ "\n", req.imagePrompt)
      | Except.ok reply => (c0, reply)
    else (c0, req.imagePrompt)
  let c1 :=
    if e1.2 ≠ "" then e1.1 ++ "*Image prompt*: " ++ env.esc e1.2 ++ "\n"
    else e1.1
  if req.cmdName = "meme_auto" || req.cmdName = "meme_labels_auto" then
    match env.meme with
    | Except.error e =>
      (c1 ++ "*LLM Error*: " ++ env.esc e ++ "\n", req.labelsContent)
    | Except.ok m => (c1, goTrim m)
  else (c1, req.labelsContent)

/-- The status text just before `GenImage` is called: `preGen` plus the
labels line (lines 693-695). -/
def statusBeforeGen (env : ImgEnv) (req : IntReq) : String :=
  if (preGen env req).2 ≠ "" then
    (preGen env req).1 ++ "*Labels*: " ++ env.esc (preGen env req).2 ++ "\n"
  else (preGen env req).1

/-- `handleImage` (lines 642-728), as the list of response edits it
performs: `meme_labels_auto` answers with the labels alone; a `GenImage`
failure posts the accumulated status plus the error; a `png.Encode`
failure logs and returns with *no* edit; success posts the status with
the image attached. -/
def handleImage (env : ImgEnv) (req : IntReq) : List RespEdit :=
  if req.cmdName = "meme_labels_auto" then
    [⟨(preGen env req).1 ++ "*Labels*: " ++ env.esc (preGen env req).2, false⟩]
  else
    match env.gen with
    | Except.error e =>
      [⟨statusBeforeGen env req ++ "*ImageGen Error*: " ++ env.esc e, false⟩]
    | Except.ok _ =>
      if env.encodeOk = false then []
      else [⟨statusBeforeGen env req, true⟩]

/-! ### Lemmas about the fence scan -/

theorem startsFence_iff {s : GStr} : startsFence s = true ↔ ∃ r, s = fence ++ r := by
  constructor
  · intro h
    match s, h with
    | c :: d :: e :: rest, h =>
      simp only [startsFence, Bool.and_eq_true, decide_eq_true_eq] at h
      exact ⟨rest, by simp [fence, h.1.1, h.1.2, h.2]⟩
  · rintro ⟨r, rfl⟩
    simp [fence, startsFence]

theorem startsFence_length {s : GStr} (h : startsFence s = true) : 3 ≤ s.length := by
  obtain ⟨r, rfl⟩ := startsFence_iff.mp h
  simp [fence]

theorem countFence_cons_not {c : Char} {rest : GStr}
    (h : startsFence (c :: rest) = false) : countFence (c :: rest) = countFence rest := by
  match rest with
  | [] => rfl
  | [d] => rfl
  | d :: e :: rest2 =>
    simp only [startsFence] at h
    simp [countFence, h]

theorem countFence_cons_starts {c : Char} {rest : GStr}
    (h : startsFence (c :: rest) = true) :
    countFence (c :: rest) = 1 + countFence ((c :: rest).drop 3) := by
  match rest with
  | d :: e :: rest2 =>
    simp only [startsFence] at h
    simp [countFence, h]
  | [] => simp [startsFence] at h
  | [d] => simp [startsFence] at h

theorem indexFence_cons_starts {c : Char} {rest : GStr}
    (hs : startsFence (c :: rest) = true) : indexFence? (c :: rest) = some 0 := by
  simp [indexFence?, hs]

theorem indexFence_cons_not {c : Char} {rest : GStr}
    (hs : startsFence (c :: rest) = false) :
    indexFence? (c :: rest) = (indexFence? rest).map (· + 1) := by
  simp [indexFence?, hs]

theorem indexFence_at {s : GStr} {i : Nat} (h : indexFence? s = some i) :
    startsFence (s.drop i) = true := by
  induction s generalizing i with
  | nil => simp [indexFence?] at h
  | cons c rest ih =>
    cases hs : startsFence (c :: rest) with
    | true =>
      rw [indexFence_cons_starts hs] at h
      cases h
      simpa using hs
    | false =>
      rw [indexFence_cons_not hs, Option.map_eq_some'] at h
      obtain ⟨j, hj, rfl⟩ := h
      simpa using ih hj

theorem indexFence_min {s : GStr} {i j : Nat} (h : indexFence? s = some i)
    (hj : j < i) : startsFence (s.drop j) = false := by
  induction s generalizing i j with
  | nil => simp [indexFence?] at h
  | cons c rest ih =>
    cases hs : startsFence (c :: rest) with
    | true =>
      rw [indexFence_cons_starts hs] at h
      cases h
      omega
    | false =>
      rw [indexFence_cons_not hs, Option.map_eq_some'] at h
      obtain ⟨k, hk, rfl⟩ := h
      match j with
      | 0 => simpa using hs
      | j' + 1 => simpa using ih hk (by omega)

theorem indexFence_none {s : GStr} (h : indexFence? s = none) (j : Nat) :
    startsFence (s.drop j) = false := by
  induction s generalizing j with
  | nil => cases j <;> simp [startsFence]
  | cons c rest ih =>
    cases hs : startsFence (c :: rest) with
    | true => rw [indexFence_cons_starts hs] at h; cases h
    | false =>
      rw [indexFence_cons_not hs, Option.map_eq_none'] at h
      match j with
      | 0 => simpa using hs
      | j' + 1 => simpa using ih h j'

theorem countFence_of_none {s : GStr} (h : indexFence? s = none) :
    countFence s = 0 := by
  induction s with
  | nil => rfl
  | cons c rest ih =>
    cases hs : startsFence (c :: rest) with
    | true => rw [indexFence_cons_starts hs] at h; cases h
    | false =>
      rw [indexFence_cons_not hs, Option.map_eq_none'] at h
      rw [countFence_cons_not hs]
      exact ih h

theorem countFence_decomp {s : GStr} {i : Nat} (h : indexFence? s = some i) :
    countFence s = 1 + countFence (s.drop (i + 3)) := by
  induction s generalizing i with
  | nil => simp [indexFence?] at h
  | cons c rest ih =>
    cases hs : startsFence (c :: rest) with
    | true =>
      rw [indexFence_cons_starts hs] at h
      cases h
      exact countFence_cons_starts hs
    | false =>
      rw [indexFence_cons_not hs, Option.map_eq_some'] at h
      obtain ⟨k, hk, rfl⟩ := h
      rw [countFence_cons_not hs, ih hk]
      rfl

theorem indexFence_isSome {s : GStr} (h : 0 < countFence s) :
    ∃ i, indexFence? s = some i := by
  cases hi : indexFence? s with
  | none => rw [countFence_of_none hi] at h; omega
  | some i => exact ⟨i, rfl⟩

theorem startsFence_of_take {s : GStr} {n : Nat}
    (h : startsFence (s.take n) = true) : startsFence s = true := by
  obtain ⟨r, hr⟩ := startsFence_iff.mp h
  refine startsFence_iff.mpr ⟨r ++ s.drop n, ?_⟩
  calc s = s.take n ++ s.drop n := (List.take_append_drop n s).symm
    _ = (fence ++ r) ++ s.drop n := by rw [hr]
    _ = fence ++ (r ++ s.drop n) := List.append_assoc ..

theorem startsFence_take {s : GStr} {n : Nat} (h : startsFence s = true)
    (hn : 3 ≤ n) : startsFence (s.take n) = true := by
  obtain ⟨r, rfl⟩ := startsFence_iff.mp h
  refine startsFence_iff.mpr ⟨r.take (n - 3), ?_⟩
  rw [List.take_append_eq_append_take, List.take_of_length_le (by simp [fence]; omega)]
  have : fence.length = 3 := rfl
  rw [this]

theorem indexFence_take_none {s : GStr} {n : Nat}
    (hm : ∀ j, j < n → startsFence (s.drop j) = false) :
    indexFence? (s.take n) = none := by
  cases h : indexFence? (s.take n) with
  | none => rfl
  | some k =>
    exfalso
    have hat := indexFence_at h
    have hlen := startsFence_length hat
    have hkn : k < n := by
      have := List.length_drop k (s.take n)
      simp only [List.length_take] at this
      omega
    have : startsFence (s.drop k) = true := by
      rw [List.drop_take] at hat
      exact startsFence_of_take hat
    rw [hm k hkn] at this
    exact absurd this (by simp)

theorem indexFence_char {s : GStr} {i : Nat} :
    indexFence? s = some i ↔
      startsFence (s.drop i) = true ∧ ∀ j, j < i → startsFence (s.drop j) = false := by
  constructor
  · intro h
    exact ⟨indexFence_at h, fun j hj => indexFence_min h hj⟩
  · rintro ⟨hat, hmin⟩
    cases h : indexFence? s with
    | none => rw [indexFence_none h i] at hat; exact absurd hat (by simp)
    | some k =>
      rcases Nat.lt_trichotomy k i with hlt | rfl | hgt
      · have hk := indexFence_at h
        rw [hmin k hlt] at hk
        exact absurd hk (by simp)
      · rfl
      · rw [indexFence_min h hgt] at hat
        exact absurd hat (by simp)

theorem indexFence_take {s : GStr} {i n : Nat} (h : indexFence? s = some i)
    (hn : i + 3 ≤ n) : indexFence? (s.take n) = some i := by
  refine indexFence_char.mpr ⟨?_, ?_⟩
  · rw [List.drop_take]
    exact startsFence_take (indexFence_at h) (by omega)
  · intro j hj
    cases hsj : startsFence ((s.take n).drop j) with
    | false => rfl
    | true =>
      exfalso
      rw [List.drop_take] at hsj
      have := startsFence_of_take hsj
      rw [indexFence_min h hj] at this
      exact absurd this (by simp)

theorem countFence_take_second {s : GStr} {i1 i2 : Nat}
    (h1 : indexFence? s = some i1)
    (h2 : indexFence? (s.drop (i1 + 3)) = some i2) :
    countFence (s.take (i1 + 3 + i2 + 3)) = 2 := by
  have hfirst : indexFence? (s.take (i1 + 3 + i2 + 3)) = some i1 :=
    indexFence_take h1 (by omega)
  rw [countFence_decomp hfirst]
  have hdrop : (s.take (i1 + 3 + i2 + 3)).drop (i1 + 3)
      = (s.drop (i1 + 3)).take (i2 + 3) := by
    rw [List.drop_take]
    congr 1
    omega
  rw [hdrop]
  have hsecond : indexFence? ((s.drop (i1 + 3)).take (i2 + 3)) = some i2 :=
    indexFence_take h2 (by omega)
  rw [countFence_decomp hsecond]
  have : ((s.drop (i1 + 3)).take (i2 + 3)).drop (i2 + 3) = [] := by
    rw [List.drop_take]
    simp
  rw [this]
  rfl

theorem countFence_take_zero {s : GStr} {n : Nat}
    (hm : ∀ j, j < n → startsFence (s.drop j) = false) :
    countFence (s.take n) = 0 :=
  countFence_of_none (indexFence_take_none hm)

theorem indexFenceI_eq {s : GStr} {i : Nat} (h : indexFence? s = some i) :
    indexFenceI s = i := by
  unfold indexFenceI
  rw [h]

/-! ### Bounds of the split function -/

theorem lastIndexByteI_eq_some {s : GStr} {c : Char} {i : Nat}
    (h : lastIndexByte? s c = some i) : lastIndexByteI s c = i := by
  unfold lastIndexByteI
  rw [h]

theorem lastIndexByteI_eq_none {s : GStr} {c : Char}
    (h : lastIndexByte? s c = none) : lastIndexByteI s c = -1 := by
  unfold lastIndexByteI
  rw [h]

theorem lastIndexAnyI_eq_some {s : GStr} {cs : List Char} {i : Nat}
    (h : lastIndexAny? s cs = some i) : lastIndexAnyI s cs = i := by
  unfold lastIndexAnyI
  rw [h]

theorem lastIndexAnyI_eq_none {s : GStr} {cs : List Char}
    (h : lastIndexAny? s cs = none) : lastIndexAnyI s cs = -1 := by
  unfold lastIndexAnyI
  rw [h]

theorem lastIndexByte_lt {s : GStr} {c : Char} {i : Nat}
    (h : lastIndexByte? s c = some i) : i < s.length := by
  induction s generalizing i with
  | nil => simp [lastIndexByte?] at h
  | cons x rest ih =>
    unfold lastIndexByte? at h
    cases hr : lastIndexByte? rest c with
    | some j =>
      rw [hr] at h
      cases h
      have := ih hr
      simp only [List.length_cons]
      omega
    | none =>
      rw [hr] at h
      split_ifs at h
      cases h
      simp

theorem lastIndexAny_lt {s : GStr} {cs : List Char} {i : Nat}
    (h : lastIndexAny? s cs = some i) : i < s.length := by
  induction s generalizing i with
  | nil => simp [lastIndexAny?] at h
  | cons x rest ih =>
    unfold lastIndexAny? at h
    cases hr : lastIndexAny? rest cs with
    | some j =>
      rw [hr] at h
      cases h
      have := ih hr
      simp only [List.length_cons]
      omega
    | none =>
      rw [hr] at h
      split_ifs at h
      cases h
      simp

theorem punctWindow_length (t : GStr) : (punctWindow t).length ≤ t.length := by
  unfold punctWindow
  split_ifs
  · rw [List.length_take]
    omega
  · exact Nat.le_refl _

theorem splitPunct_bound (t : GStr) :
    0 ≤ splitPunct t ∧ (splitPunct t).toNat ≤ t.length := by
  unfold splitPunct
  cases hr : lastIndexAny? (punctWindow t) ".?!".data with
  | none =>
    rw [lastIndexAnyI_eq_none hr]
    simp
  | some i =>
    rw [lastIndexAnyI_eq_some hr]
    have h1 := lastIndexAny_lt hr
    have h2 := punctWindow_length t
    rw [if_neg (by omega)]
    constructor
    · omega
    · omega

theorem splitRest_bound {rx : GStr → RxRes} {t : GStr} {v : Int}
    (h : splitRest rx t = some v) : 0 ≤ v ∧ v.toNat ≤ t.length := by
  unfold splitRest at h
  by_cases h1 : t = []
  · rw [if_pos h1] at h
    cases h
    simp
  · rw [if_neg h1] at h
    by_cases h2 : 10 ≤ lastIndexByteI t nlChar
    · rw [if_pos h2] at h
      cases h
      cases hr : lastIndexByte? t nlChar with
      | none =>
        rw [lastIndexByteI_eq_none hr] at h2
        omega
      | some i =>
        rw [lastIndexByteI_eq_some hr] at h2 ⊢
        have := lastIndexByte_lt hr
        constructor
        · omega
        · omega
    · rw [if_neg h2] at h
      cases hrx : enumCheck rx t with
      | err =>
        rw [hrx] at h
        cases h
      | ok b =>
        rw [hrx] at h
        cases b with
        | true =>
          replace h : (some 0 : Option Int) = some v := h
          cases h
          simp
        | false =>
          replace h : (if t.length < 10 then some (0 : Int)
              else some (splitPunct t)) = some v := h
          by_cases h3 : t.length < 10
          · rw [if_pos h3] at h
            cases h
            simp
          · rw [if_neg h3] at h
            cases h
            exact splitPunct_bound t

/-- C2: with two or more fence markers in the pending buffer, the split
function returns the index just past the second fence marker, regardless of
the regexp oracle; the emitted chunk `t.take n` contains exactly two fence
markers (the first complete fenced block) and ends with the closing
fence. -/
theorem splitResponse_two_fences (rx : GStr → RxRes) (t : GStr)
    (h : 2 ≤ countFence t) :
    ∃ n, secondFenceEnd t = some n ∧ splitResponse rx t = some (n : Int) ∧
      countFence (t.take n) = 2 ∧ List.IsSuffix fence (t.take n) := by
  obtain ⟨i1, h1⟩ := indexFence_isSome (s := t) (by omega)
  have hd := countFence_decomp h1
  obtain ⟨i2, h2⟩ := indexFence_isSome (s := t.drop (i1 + 3)) (by omega)
  refine ⟨i1 + 3 + i2 + 3, ?_, ?_, ?_, ?_⟩
  · unfold secondFenceEnd
    rw [h1, Option.some_bind, h2]
    rfl
  · unfold splitResponse
    rw [if_neg (by omega), if_pos h]
    rw [indexFenceI_eq h1]
    have htn : ((i1 : Int) + 3).toNat = i1 + 3 := by omega
    rw [htn, indexFenceI_eq h2]
    congr 1
    push_cast
    ring
  · exact countFence_take_second h1 h2
  · have hat : startsFence (t.drop (i1 + 3 + i2)) = true := by
      have h3 := indexFence_at h2
      rwa [List.drop_drop] at h3
    obtain ⟨r, hr⟩ := startsFence_iff.mp hat
    refine ⟨t.take (i1 + 3 + i2), ?_⟩
    have h4 : t.take (i1 + 3 + i2 + 3)
        = t.take (i1 + 3 + i2) ++ (t.drop (i1 + 3 + i2)).take 3 :=
      List.take_add ..
    have h5 : (t.drop (i1 + 3 + i2)).take 3 = fence := by
      rw [hr, List.take_append_eq_append_take,
        List.take_of_length_le (by simp [fence])]
      simp [fence]
    rw [h4, h5]

/-- C3 (amended): an emitted chunk always contains an even number of
triple-backquote fence markers — the chunker never cuts inside an unclosed
triple fence.  (The inline single-backquote half of the original claim is
refuted separately.) -/
theorem splitResponse_chunk_even_fences (rx : GStr → RxRes) (t : GStr)
    (v : Int) (h : splitResponse rx t = some v) (hv : 0 < v) :
    countFence (t.take v.toNat) % 2 = 0 := by
  unfold splitResponse at h
  split_ifs at h with h1 h2
  · -- exactly one fence: the buffer is truncated to just before it
    obtain ⟨i1, hi1⟩ := indexFence_isSome (s := t) (by omega)
    rw [indexFenceI_eq hi1] at h
    have hti : ((i1 : Int)).toNat = i1 := by omega
    rw [hti] at h
    have hb := splitRest_bound h
    have hlen : v.toNat ≤ i1 := by
      have h3 := hb.2
      rw [List.length_take] at h3
      omega
    have hz : countFence (t.take v.toNat) = 0 :=
      countFence_take_zero (fun j hj => indexFence_min hi1 (by omega))
    omega
  · -- two or more fences: the chunk is the first complete fenced block
    obtain ⟨i1, hi1⟩ := indexFence_isSome (s := t) (by omega)
    have hd := countFence_decomp hi1
    obtain ⟨i2, hi2⟩ := indexFence_isSome (s := t.drop (i1 + 3)) (by omega)
    rw [indexFenceI_eq hi1] at h
    have htn : ((i1 : Int) + 3).toNat = i1 + 3 := by omega
    rw [htn, indexFenceI_eq hi2] at h
    have hv' : v.toNat = i1 + 3 + i2 + 3 := by
      cases h
      omega
    rw [hv', countFence_take_second hi1 hi2]
  · -- no fence at all: the chunk is fence-free
    have hz : indexFence? t = none := by
      cases hi : indexFence? t with
      | none => rfl
      | some i =>
        have := countFence_decomp hi
        omega
    have hc : countFence (t.take v.toNat) = 0 :=
      countFence_take_zero (fun j _ => indexFence_none hz j)
    omega

/-- C3 witness: a tick on `"Hello world. More text"` emits the 12-byte
chunk `"Hello world."`, which contains zero (an even number of) fence
markers. -/
theorem splitResponse_chunk_even_fences_witness :
    splitResponse rxGo "Hello world. More text".data = some 12 ∧
    (0 : Int) < 12 ∧
    countFence (("Hello world. More text".data).take ((12 : Int)).toNat) % 2 = 0 :=
  ⟨by decide, by decide,
    splitResponse_chunk_even_fences rxGo "Hello world. More text".data 12
      (by decide) (by decide)⟩

/-- C3 counterexample: the newline rule runs before any inline-backquote
guard, so the chunk emitted for `"here is ` `code\nmore text"` is
`"here is ` `code\n"`, which contains an odd number of single backquotes —
the cut lands inside the inline code span, refuting the claim that an
emitted chunk never ends with a trailing odd-count backtick span. -/
theorem splitResponse_cuts_inline_span :
    splitResponse rxGo "here is `code\nmore text".data = some 14 ∧
    ¬ countTick (("here is `code\nmore text".data).take 14) % 2 = 0 := by
  constructor
  · decide
  · decide

/-- C2 witness: on the spec's example `"` ```python\ncode\n``` `rest"` the
split point is 18, the chunk is the complete fenced block and `"rest"` is
retained. -/
theorem splitResponse_two_fences_witness :
    2 ≤ countFence "```python\ncode\n```rest".data ∧
    (∃ n, secondFenceEnd "```python\ncode\n```rest".data = some n ∧
      splitResponse (fun _ => RxRes.ok false) "```python\ncode\n```rest".data
        = some (n : Int) ∧
      countFence (("```python\ncode\n```rest".data).take n) = 2 ∧
      List.IsSuffix fence (("```python\ncode\n```rest".data).take n)) :=
  ⟨by decide,
    splitResponse_two_fences (fun _ => RxRes.ok false)
      "```python\ncode\n```rest".data (by decide)⟩

/-- C4 (code bug): a bulleted item emits nothing as specified, but the
numbered item `"1. item one"` yields split point 2 — cutting right after
`"1."` — instead of 0, because `regexp.MatchString`'s arguments are
swapped (the buffer is passed as the pattern), so the numbered-list check
never matches. -/
theorem splitResponse_numbered_list_bug :
    splitResponse rxGo "- item one".data = some 0 ∧
    splitResponse rxGo "* item two".data = some 0 ∧
    splitResponse rxGo "1. item one".data = some 2 := by
  refine ⟨by decide, by decide, by decide⟩

/-- C10 (code bug): `splitResponse` does not terminate normally on every
input: on the buffer `"("` the swapped `regexp.MatchString(t, ...)` call
compiles the buffer as a pattern, fails, and the code panics
(`none` in this model), refuting the claim that the function always
returns an in-bounds index. -/
theorem splitResponse_panics_on_invalid_pattern :
    splitResponse rxGo "(".data = none := by decide

/-! ### The streaming loop: concatenation invariant (C1) -/

theorem chatRun_inv {rx : GStr → RxRes} {evs : List ChatEv} {s s' : ChatState}
    (h : chatRun rx evs s = some s') :
    s'.text ++ s'.pending = s.text ++ s.pending ++ wordsOf evs ∧
    (s.emitted.flatten = s.text → s'.emitted.flatten = s'.text) := by
  induction evs generalizing s with
  | nil =>
    unfold chatRun at h
    cases h
    simp [wordsOf]
  | cons e es ih =>
    unfold chatRun at h
    cases hs : chatStep rx s e with
    | none => rw [hs] at h; cases h
    | some s2 =>
      rw [hs] at h
      obtain ⟨ih1, ih2⟩ := ih h
      cases e with
      | word w =>
        unfold chatStep at hs
        cases hs
        refine ⟨?_, fun hse => ih2 hse⟩
        rw [ih1]
        simp [wordsOf]
      | tick =>
        unfold chatStep at hs
        cases hsp : splitResponse rx s.pending with
        | none => rw [hsp] at hs; cases hs
        | some i =>
          rw [hsp] at hs
          replace hs : (if i = 0 then some s
              else some
                { text := s.text ++ s.pending.take i.toNat
                  pending := s.pending.drop i.toNat
                  emitted := s.emitted ++ [s.pending.take i.toNat] }) = some s2 := hs
          by_cases hi : i = 0
          · rw [if_pos hi] at hs
            cases hs
            exact ⟨by rw [ih1]; simp [wordsOf], ih2⟩
          · rw [if_neg hi] at hs
            cases hs
            constructor
            · rw [ih1]
              simp only [wordsOf]
              conv_rhs => rw [← List.take_append_drop (i.toNat) s.pending]
              simp [List.append_assoc]
            · intro hse
              apply ih2
              simp [hse]

/-- C1 counterexample: the token stream consisting of the single token
`"("` followed by a tick makes the flush goroutine panic inside
`splitResponse` (swapped `regexp.MatchString` arguments), so the loop
never reaches stream closure: no final forced emission happens and no
assistant turn is appended, refuting the claim for this finite stream. -/
theorem chatRun_panic_no_emission :
    chatRun rxGo [ChatEv.word "(".data, ChatEv.tick] chatInit = none := by decide

/-- C1 (amended): for every finite stimulus stream whose processing
completes (no `splitResponse` panic), the concatenation of all chunks
emitted on ticks plus the final forced emission equals the full token
stream; closure with non-empty `pending` adds exactly one final emission
holding all remaining text, and the assistant turn appended to history
equals the full concatenation. -/
theorem chatRun_concat_of_completes (rx : GStr → RxRes) (evs : List ChatEv)
    (s' : ChatState) (h : chatRun rx evs chatInit = some s') :
    (chatFinishEmits s').flatten = wordsOf evs ∧
    chatFinishText s' = wordsOf evs ∧
    (s'.pending ≠ [] → chatFinishEmits s' = s'.emitted ++ [s'.pending]) := by
  obtain ⟨h1, h2⟩ := chatRun_inv h
  have h3 : s'.emitted.flatten = s'.text := h2 rfl
  have h1' : s'.text ++ s'.pending = wordsOf evs := by
    simpa [chatInit] using h1
  unfold chatFinishEmits chatFinishText
  by_cases hp : s'.pending = []
  · rw [if_pos hp, if_pos hp]
    refine ⟨?_, ?_, fun hc => absurd hp hc⟩
    · rw [h3, ← h1', hp]
      simp
    · rw [← h1', hp]
      simp
  · rw [if_neg hp, if_neg hp]
    exact ⟨by simp [h3, h1'], h1', fun _ => rfl⟩

/-- C1 witness: a concrete completing run — token `"Hello world. More
text"`, a tick (which flushes `"Hello world."`), then token `"!"` — for
which the emissions plus final flush and the history turn both equal the
full stream. -/
theorem chatRun_concat_witness :
    chatRun rxGo
        [ChatEv.word "Hello world. More text".data, ChatEv.tick,
          ChatEv.word "!".data] chatInit
      = some ⟨"Hello world.".data, " More text!".data, ["Hello world.".data]⟩ ∧
    ((chatFinishEmits
        ⟨"Hello world.".data, " More text!".data, ["Hello world.".data]⟩).flatten
      = wordsOf
        [ChatEv.word "Hello world. More text".data, ChatEv.tick,
          ChatEv.word "!".data] ∧
     chatFinishText
        ⟨"Hello world.".data, " More text!".data, ["Hello world.".data]⟩
      = wordsOf
        [ChatEv.word "Hello world. More text".data, ChatEv.tick,
          ChatEv.word "!".data] ∧
     ((⟨"Hello world.".data, " More text!".data,
          ["Hello world.".data]⟩ : ChatState).pending ≠ [] →
       chatFinishEmits
          ⟨"Hello world.".data, " More text!".data, ["Hello world.".data]⟩
        = ["Hello world.".data] ++ [" More text!".data])) :=
  ⟨by decide,
    chatRun_concat_of_completes rxGo
      [ChatEv.word "Hello world. More text".data, ChatEv.tick,
        ChatEv.word "!".data]
      ⟨"Hello world.".data, " More text!".data, ["Hello world.".data]⟩
      (by decide)⟩

/-! ### Queue admission (C5) -/

/-- C5: admission never blocks — it is a total function of the queue
state; below capacity the enqueue succeeds immediately and appends, at
capacity it fails immediately, the queue is unchanged, and the caller
sends the user-visible "try again later" rejection with no retry; the
queue capacities are 5 (chat) and 3 (image). -/
theorem tryEnqueue_admission (qc : BChan MsgReq) (qi : BChan IntReq)
    (rc : MsgReq) (ri : IntReq) :
    (qc.items.length < qc.cap →
      tryEnqueue qc rc = (true, ⟨qc.cap, qc.items ++ [rc]⟩) ∧
      onMessageAdmit qc rc = (⟨qc.cap, qc.items ++ [rc]⟩, none)) ∧
    (qc.cap ≤ qc.items.length →
      tryEnqueue qc rc = (false, qc) ∧
      onMessageAdmit qc rc = (qc, some chatRejectMsg)) ∧
    (qi.items.length < qi.cap →
      tryEnqueue qi ri = (true, ⟨qi.cap, qi.items ++ [ri]⟩) ∧
      onImageAdmit qi ri = (⟨qi.cap, qi.items ++ [ri]⟩, none)) ∧
    (qi.cap ≤ qi.items.length →
      tryEnqueue qi ri = (false, qi) ∧
      onImageAdmit qi ri = (qi, some imageRejectMsg)) ∧
    chatQueue.cap = 5 ∧ imageQueue.cap = 3 := by
  refine ⟨fun h => ?_, fun h => ?_, fun h => ?_, fun h => ?_, rfl, rfl⟩
  · constructor <;> simp [tryEnqueue, onMessageAdmit, h]
  · have h' : ¬ qc.items.length < qc.cap := by omega
    constructor <;> simp [tryEnqueue, onMessageAdmit, h']
  · constructor <;> simp [tryEnqueue, onImageAdmit, h]
  · have h' : ¬ qi.items.length < qi.cap := by omega
    constructor <;> simp [tryEnqueue, onImageAdmit, h']

/-- C5 witness: on the empty chat queue (capacity 5) admission succeeds
and appends; on a full chat queue admission fails, leaves the queue as it
was and produces the rejection message. -/
theorem tryEnqueue_admission_witness :
    (chatQueue.items.length < chatQueue.cap ∧
      onMessageAdmit chatQueue ⟨"hi", "a", "c", "g", "r"⟩
        = (⟨chatQueue.cap, chatQueue.items ++ [⟨"hi", "a", "c", "g", "r"⟩]⟩, none)) ∧
    ((5 : Nat) ≤
        (⟨5, [⟨"m", "a", "c", "g", "r"⟩, ⟨"m", "a", "c", "g", "r"⟩,
          ⟨"m", "a", "c", "g", "r"⟩, ⟨"m", "a", "c", "g", "r"⟩,
          ⟨"m", "a", "c", "g", "r"⟩]⟩ : BChan MsgReq).items.length ∧
      onMessageAdmit
          ⟨5, [⟨"m", "a", "c", "g", "r"⟩, ⟨"m", "a", "c", "g", "r"⟩,
            ⟨"m", "a", "c", "g", "r"⟩, ⟨"m", "a", "c", "g", "r"⟩,
            ⟨"m", "a", "c", "g", "r"⟩]⟩ ⟨"hi", "a", "c", "g", "r"⟩
        = (⟨5, [⟨"m", "a", "c", "g", "r"⟩, ⟨"m", "a", "c", "g", "r"⟩,
            ⟨"m", "a", "c", "g", "r"⟩, ⟨"m", "a", "c", "g", "r"⟩,
            ⟨"m", "a", "c", "g", "r"⟩]⟩, some chatRejectMsg)) :=
  ⟨⟨by decide,
    ((tryEnqueue_admission chatQueue imageQueue ⟨"hi", "a", "c", "g", "r"⟩
      ⟨"", "", "", "", true⟩).1 (by decide)).2⟩,
   ⟨by decide,
    ((tryEnqueue_admission
      ⟨5, [⟨"m", "a", "c", "g", "r"⟩, ⟨"m", "a", "c", "g", "r"⟩,
        ⟨"m", "a", "c", "g", "r"⟩, ⟨"m", "a", "c", "g", "r"⟩,
        ⟨"m", "a", "c", "g", "r"⟩]⟩ imageQueue ⟨"hi", "a", "c", "g", "r"⟩
      ⟨"", "", "", "", true⟩).2.1 (by decide)).2⟩⟩

/-! ### Worker termination (C6) -/

theorem chatRoutine_spec (reqs : List MsgReq) :
    ((chatRoutine reqs).2 = true ↔ ∃ r ∈ reqs, r.authorID = "") ∧
    (chatRoutine reqs).1
      = reqs.takeWhile (fun r => !decide (r.authorID = "")) := by
  induction reqs with
  | nil => simp [chatRoutine]
  | cons r rest ih =>
    by_cases hr : r.authorID = ""
    · simp [chatRoutine, hr]
    · simp only [chatRoutine, hr, if_false, List.takeWhile_cons,
        decide_eq_true_eq]
      constructor
      · rw [ih.1]
        simp [hr]
      · rw [ih.2]
        simp [hr]

theorem imageRoutine_spec (reqs : List IntReq) :
    ((imageRoutine reqs).2 = true ↔ ∃ r ∈ reqs, r.hasInt = false) ∧
    (imageRoutine reqs).1 = reqs.takeWhile (fun r => r.hasInt) := by
  induction reqs with
  | nil => simp [imageRoutine]
  | cons r rest ih =>
    by_cases hr : r.hasInt = false
    · simp [imageRoutine, hr]
    · have hr' : r.hasInt = true := by
        cases h : r.hasInt
        · exact absurd h hr
        · rfl
      have hstep : imageRoutine (r :: rest)
          = (r :: (imageRoutine rest).1, (imageRoutine rest).2) := by
        simp [imageRoutine, hr']
      rw [hstep]
      constructor
      · show (imageRoutine rest).2 = true ↔ _
        rw [ih.1]
        simp [hr']
      · show r :: (imageRoutine rest).1 = _
        rw [ih.2, List.takeWhile_cons, hr']
        simp

/-- C6: each worker loop terminates exactly when it dequeues the poison
request (empty author id for chat, nil interaction for image); every
non-poison request before the first poison is handled, nothing after the
poison is, and a stream with no poison leaves the worker running — there
is no other path to termination. -/
theorem routine_poison_termination (reqs : List MsgReq) (ireqs : List IntReq) :
    ((chatRoutine reqs).2 = true ↔ ∃ r ∈ reqs, r.authorID = "") ∧
    (chatRoutine reqs).1
      = reqs.takeWhile (fun r => !decide (r.authorID = "")) ∧
    ((imageRoutine ireqs).2 = true ↔ ∃ r ∈ ireqs, r.hasInt = false) ∧
    (imageRoutine ireqs).1 = ireqs.takeWhile (fun r => r.hasInt) :=
  ⟨(chatRoutine_spec reqs).1, (chatRoutine_spec reqs).2,
   (imageRoutine_spec ireqs).1, (imageRoutine_spec ireqs).2⟩

/-! ### Readiness polling (C7) -/

theorem pollReady_clean_skip {pre : List PollObs} (l : List PollObs)
    (hpre : ∀ p ∈ pre, p.ctxErr = false ∧ p.healthReady = false ∧ p.doneErr = none) :
    pollReady (pre ++ l) = pollReady l := by
  induction pre with
  | nil => rfl
  | cons p pre' ih =>
    obtain ⟨h1, h2, h3⟩ := hpre p (by simp)
    simp only [List.cons_append, pollReady, h1, h2, h3, if_false]
    exact ih (fun q hq => hpre q (by simp [hq]))

/-- C7 counterexample: a failed health probe followed by context
cancellation makes the loop condition `ctx.Err() == nil` fail, the `for`
exits, and `New` falls through to `return ig, nil` — the outcome is
`success`, not a startup failure carrying a cancellation error, refuting
the claim that cancellation makes the startup operation fail. -/
theorem pollReady_cancel_success :
    pollReady [⟨false, false, none⟩, ⟨true, false, none⟩]
      = NewOutcome.success := by decide

/-- C7 (amended): the readiness poll exits only when the sidecar reports
ready, the caller's context is cancelled, or the completion signal fires;
after any clean prefix, a done-signal observation produces a startup
failure wrapping the process exit error, while cancellation — like a
successful probe — terminates the poll with `New` returning the session
and a nil error (no cancellation error is surfaced). -/
theorem pollReady_outcomes (l pre rest : List PollObs) (o : PollObs)
    (hpre : ∀ p ∈ pre, p.ctxErr = false ∧ p.healthReady = false ∧ p.doneErr = none) :
    (pollReady l = NewOutcome.polling ↔
      ∀ p ∈ l, p.ctxErr = false ∧ p.healthReady = false ∧ p.doneErr = none) ∧
    (o.ctxErr = true → pollReady (pre ++ o :: rest) = NewOutcome.success) ∧
    (o.ctxErr = false → o.healthReady = true →
      pollReady (pre ++ o :: rest) = NewOutcome.success) ∧
    (∀ e, o.ctxErr = false → o.healthReady = false → o.doneErr = some e →
      pollReady (pre ++ o :: rest)
        = NewOutcome.startFailure ("failed to start: " ++ e)) := by
  refine ⟨?_, ?_, ?_, ?_⟩
  · induction l with
    | nil => simp [pollReady]
    | cons p l' ih =>
      constructor
      · intro h
        unfold pollReady at h
        by_cases h1 : p.ctxErr = true
        · rw [if_pos h1] at h
          cases h
        · rw [if_neg h1] at h
          by_cases h2 : p.healthReady = true
          · rw [if_pos h2] at h
            cases h
          · rw [if_neg h2] at h
            cases hd : p.doneErr with
            | some e => rw [hd] at h; cases h
            | none =>
              rw [hd] at h
              intro q hq
              rcases List.mem_cons.mp hq with rfl | hq'
              · exact ⟨by simpa using h1, by simpa using h2, hd⟩
              · exact (ih.mp h) q hq'
      · intro hall
        obtain ⟨h1, h2, h3⟩ := hall p (by simp)
        simp only [pollReady, h1, h2, h3, if_false]
        exact ih.mpr (fun q hq => hall q (by simp [hq]))
  · intro h1
    rw [pollReady_clean_skip _ hpre]
    simp [pollReady, h1]
  · intro h1 h2
    rw [pollReady_clean_skip _ hpre]
    simp [pollReady, h1, h2]
  · intro e h1 h2 h3
    rw [pollReady_clean_skip _ hpre]
    simp [pollReady, h1, h2, h3]

/-- C7 witness: after one clean iteration, the done signal firing with
error `"boom"` ends the poll with a startup failure wrapping it. -/
theorem pollReady_outcomes_witness :
    pollReady [⟨false, false, none⟩, ⟨false, false, some "boom"⟩]
      = NewOutcome.startFailure ("failed to start: " ++ "boom") :=
  (pollReady_outcomes [] [⟨false, false, none⟩] []
    ⟨false, false, some "boom"⟩ (by decide)).2.2.2 "boom" rfl rfl rfl

/-! ### Image pipeline delivery (C8) -/

/-- C8 counterexample: with image generation succeeding but PNG encoding
failing, `handleImage` performs no response edit at all even though the
accumulated status text is non-empty — the status is silently dropped,
refuting the claim that it is always delivered as the final response
edit. -/
theorem handleImage_encode_failure_drops_status :
    handleImage ⟨fun s => s, Except.ok "p", Except.ok "m", Except.ok (), false⟩
        ⟨"d", "", "", "image_auto", true⟩ = [] ∧
    ¬ (preGen ⟨fun s => s, Except.ok "p", Except.ok "m", Except.ok (), false⟩
        ⟨"d", "", "", "image_auto", true⟩).1 = "" :=
  ⟨by decide, by decide⟩

/-- C8 (amended): an image-generation failure short-circuits the
remaining stages and delivers the accumulated status text (which already
contains any LLM error notes — prompt-enhancement and label failures do
not short-circuit, they append a note and continue) followed by the
generation error, as the single final edit; an encoding failure aborts
with no edit at all; on success exactly one final edit carries the status
and the image; `meme_labels_auto` answers with the labels alone. -/
theorem handleImage_failure_delivery (env : ImgEnv) (req : IntReq) (e : String) :
    (req.cmdName ≠ "meme_labels_auto" → env.gen = Except.error e →
      handleImage env req =
        [⟨statusBeforeGen env req ++ "*ImageGen Error*: " ++ env.esc e, false⟩]) ∧
    (req.cmdName ≠ "meme_labels_auto" → env.gen = Except.ok () →
      env.encodeOk = false → handleImage env req = []) ∧
    (req.cmdName ≠ "meme_labels_auto" → env.gen = Except.ok () →
      env.encodeOk = true →
      handleImage env req = [⟨statusBeforeGen env req, true⟩]) ∧
    (req.cmdName = "meme_labels_auto" →
      handleImage env req =
        [⟨(preGen env req).1 ++ "*Labels*: " ++ env.esc (preGen env req).2,
          false⟩]) := by
  refine ⟨fun h1 h2 => ?_, fun h1 h2 h3 => ?_, fun h1 h2 h3 => ?_, fun h1 => ?_⟩
  · simp [handleImage, h1, h2]
  · simp [handleImage, h1, h2, h3]
  · simp [handleImage, h1, h2, h3]
  · simp [handleImage, h1]

/-- C8 witness: a concrete `image_manual` request whose generation fails
with `"boom"`: the single final edit carries the accumulated status and
the error, with no image attached. -/
theorem handleImage_failure_delivery_witness :
    (("image_manual" : String) ≠ "meme_labels_auto") ∧
    handleImage ⟨fun s => s, Except.ok "x", Except.ok "y",
        Except.error "boom", true⟩ ⟨"d", "p", "", "image_manual", true⟩
      = [⟨statusBeforeGen ⟨fun s => s, Except.ok "x", Except.ok "y",
            Except.error "boom", true⟩ ⟨"d", "p", "", "image_manual", true⟩
          ++ "*ImageGen Error*: "
          ++ (fun s => s) "boom", false⟩] :=
  ⟨by decide,
    (handleImage_failure_delivery
      ⟨fun s => s, Except.ok "x", Except.ok "y", Except.error "boom", true⟩
      ⟨"d", "p", "", "image_manual", true⟩ "boom").1 (by decide) rfl⟩

/-! ### Remote sidecar session (C9) -/

/-- C9: with a non-empty `Remote` option, session creation validates the
`host:port` form, performs no provisioning action and launches no
process (no cancel handle), aiming directly at the remote endpoint; and
`Close` on the resulting session returns nil without invoking any
terminate handle.  An invalid remote is rejected with an error. -/
theorem igNew_remote_no_provision (env : IgEnv) (opts : IgOptions)
    (d : Option String) (hr : opts.remote ≠ "") :
    (env.isHostPort opts.remote = true →
      igNewSetup env opts
        = Except.ok (⟨"http://" ++ opts.remote, false, 8⟩, []) ∧
      igClose ⟨"http://" ++ opts.remote, false, 8⟩ d = (false, none)) ∧
    (env.isHostPort opts.remote = false →
      igNewSetup env opts
        = Except.error
            ("invalid remote \"" ++ opts.remote ++ "\"; use form 'host:port'")) := by
  constructor
  · intro h
    constructor
    · simp [igNewSetup, hr, h]
    · simp [igClose]
  · intro h
    simp [igNewSetup, hr, h]

/-- C9 witness: a concrete remote session at `localhost:8080`: setup
performs no provisioning action, and `Close` is a no-op returning nil. -/
theorem igNew_remote_no_provision_witness :
    (("localhost:8080" : String) ≠ "") ∧
    (igNewSetup ⟨fun _ => true, none, none, none, 0⟩ ⟨"localhost:8080", "python"⟩
        = Except.ok (⟨"http://" ++ "localhost:8080", false, 8⟩, []) ∧
      igClose ⟨"http://" ++ "localhost:8080", false, 8⟩ none = (false, none)) :=
  ⟨by decide,
    (igNew_remote_no_provision ⟨fun _ => true, none, none, none, 0⟩
      ⟨"localhost:8080", "python"⟩ none (by decide)).1 rfl⟩

end Sillybot
